import Mathlib

/-!
Verification development for the p115client / p115updatedb mirror engine.

The definitions below are a shallow embedding of the Python/SQL source:

* the persistent store of `p115updatedb/updatedb.py` — the `data`, `dirlen`
  and `event` tables together with the triggers installed by `initdb`
  (`trg_data_before_update`, `trg_data_insert`, `trg_data_update`,
  `trg_dirlen_update`) and the write helpers `upsert_items` / `kill_items`;
* the reconciliation merge of `diff_dir` and the stream fix-up of `iterdir`;
* the adaptive paginator loop of `iter_fs_files_threaded`;
* the orchestrator loop body of `updatedb` (split decision, error dispatch);
* the topological `sort` helper.

Machine integers are modelled as `Nat`/`Int` (SQLite integers are arbitrary
precision as used here; counts may go negative, hence `Int` for them).
-/

namespace P115

/-! ### Association lists (rows keyed by integer id) -/
def alookup {α : Type} : List (Nat × α) → Nat → Option α
  | [], _ => none
  | p :: r, k => if p.1 = k then some p.2 else alookup r k


def aset {α : Type} : List (Nat × α) → Nat → α → List (Nat × α)
  | [], k, v => [(k, v)]
  | p :: r, k, v => if p.1 = k then (k, v) :: r else p :: aset r k v


/-! ### The `data` table row

Business fields of one `data` row (schema in `initdb`), plus the
`_triggered` bookkeeping column that gates `trg_data_update`
(`WHEN NOT NEW._triggered`).  `updated_at` is not modelled: no claim
mentions it and nothing reads it back. -/
structure Row where
  parent_id : Nat
  pickcode : String
  sha1 : String
  name : String
  size : Nat
  is_dir : Bool
  type : Nat
  ctime : Nat
  mtime : Nat
  is_collect : Bool
  is_alive : Bool
  triggered : Bool
deriving DecidableEq


/-- The business (JSON-diffed) part of a row: everything except the
`_triggered` bookkeeping flag. Two rows are business-equal iff their
`clearTrig` images are equal. -/
def Row.clearTrig (r : Row) : Row := { r with triggered := false }


/-! ### The `dirlen` table -/
structure Dirlen where
  dir_count : Int
  file_count : Int
  tree_dir_count : Int
  tree_file_count : Int
deriving DecidableEq


def Dirlen.zero : Dirlen := ⟨0, 0, 0, 0⟩


/-- A delta applied to one `dirlen` row by one `UPDATE dirlen SET ...`. -/
structure Delta where
  dd : Int
  df : Int
  tdd : Int
  tdf : Int


def Dirlen.add (c : Dirlen) (d : Delta) : Dirlen :=
  ⟨c.dir_count + d.dd, c.file_count + d.df,
   c.tree_dir_count + d.tdd, c.tree_file_count + d.tdf⟩


/-! ### The `event` table -/
inductive FsOp
  | add
  | remove
  | revert
  | rename
  | move
deriving DecidableEq


/-- One `event` row: subject id, pre-image (`old`, absent for inserts),
post-image (`new`, from which the `diff` JSON is derived), and the derived
`op` tag list of the `fs` JSON. -/
structure Event where
  id : Nat
  old : Option Row
  new : Row
  ops : List FsOp
deriving DecidableEq


/-- The op-tag derivation of `trg_data_update`:
`diff->>'is_alive'` truthy (is_alive changed to 1) gives `revert`,
`diff->>'is_alive' = 0` gives `remove`, a `name` key in the diff gives
`rename`, a `parent_id` key gives `move`, in that order. -/
def updateOps (old new : Row) : List FsOp :=
  (if old.is_alive = false ∧ new.is_alive = true then [FsOp.revert] else [])
  ++ (if old.is_alive = true ∧ new.is_alive = false then [FsOp.remove] else [])
  ++ (if old.name ≠ new.name then [FsOp.rename] else [])
  ++ (if old.parent_id ≠ new.parent_id then [FsOp.move] else [])


/-! ### Database state -/
structure DB where
  data : List (Nat × Row)
  dirlen : List (Nat × Dirlen)
  events : List Event
deriving DecidableEq


/-- Fresh database: `initdb` creates the tables and inserts the root row
into `dirlen` (`INSERT OR IGNORE INTO dirlen(id) VALUES (0)`). -/
def DB.init : DB := ⟨[], [(0, Dirlen.zero)], []⟩


/-- Fuel bound for recursive trigger firing; SQLite's default
`SQLITE_MAX_TRIGGER_DEPTH` is 1000. -/
def trigFuel : Nat := 1000


/-- One `UPDATE dirlen` applying a delta at `id`, followed by the recursive
propagation of `trg_dirlen_update`: when the updated row has `id ≠ 0` and
its tree counts changed, the tree deltas are added to the `dirlen` row of
`(SELECT parent_id FROM data WHERE id = NEW.id)` (nothing happens when that
lookup is empty or when no `dirlen` row matches). -/
def dirlenUpd (data : List (Nat × Row)) :
    Nat → List (Nat × Dirlen) → Nat → Delta → List (Nat × Dirlen)
  | 0, dl, _, _ => dl
  | fuel + 1, dl, id, d =>
    match alookup dl id with
    | none => dl
    | some c =>
      let dl' := aset dl id (c.add d)
      if id ≠ 0 ∧ (d.tdd ≠ 0 ∨ d.tdf ≠ 0) then
        match alookup data id with
        | none => dl'
        | some r => dirlenUpd data fuel dl' r.parent_id ⟨0, 0, d.tdd, d.tdf⟩
      else dl'


/-- `trg_data_insert` (event-enabled variant): after inserting a row,
create a `dirlen` row for a directory (`INSERT OR REPLACE ... WHERE
NEW.is_dir`), increment the parent's four counters, and append an `event`
row with op `add`. -/
def insertRow (db : DB) (id : Nat) (r : Row) : DB :=
  let data' := aset db.data id r
  let dl0 := if r.is_dir then aset db.dirlen id Dirlen.zero else db.dirlen
  let one : Int := if r.is_dir then 1 else 0
  let dl1 := dirlenUpd data' trigFuel dl0 r.parent_id ⟨one, 1 - one, one, 1 - one⟩
  { data := data', dirlen := dl1,
    events := db.events ++ [⟨id, none, r, [FsOp.add]⟩] }


/-- One `UPDATE data` of the row at `id` to `new`, with trigger semantics:

* `trg_data_before_update`: `RAISE(IGNORE)` when `NEW.mtime < OLD.mtime` —
  the whole row update is skipped;
* the update is applied;
* `trg_data_update` fires only `WHEN NOT NEW._triggered`; its body first
  re-updates the row setting `_triggered = 1`, then issues the four
  conditional `dirlen` updates (each reading the current `dirlen` row of
  `OLD.id`, a missing row read as zeros), then appends an `event` row iff
  the business fields changed. -/
def updateRow (db : DB) (id : Nat) (new : Row) : DB :=
  match alookup db.data id with
  | none => db
  | some old =>
    if new.mtime < old.mtime then db
    else
      let data1 := aset db.data id new
      if new.triggered then { db with data := data1 }
      else
        let data2 := aset data1 id { new with triggered := true }
        let c1 : Prop := old.is_alive = true ∧ old.is_dir = false ∧
          ¬(new.is_alive = true ∧ old.parent_id = new.parent_id)
        let c2 : Prop := old.is_alive = true ∧ old.is_dir = true ∧
          ¬(new.is_alive = true ∧ old.parent_id = new.parent_id)
        let c3 : Prop := new.is_alive = true ∧ old.is_dir = false ∧
          ¬(old.is_alive = true ∧ old.parent_id = new.parent_id)
        let c4 : Prop := new.is_alive = true ∧ old.is_dir = true ∧
          ¬(old.is_alive = true ∧ old.parent_id = new.parent_id)
        let dl1 := if c1 then dirlenUpd data2 trigFuel db.dirlen old.parent_id ⟨0, -1, 0, -1⟩
          else db.dirlen
        let s2 := (alookup dl1 id).getD Dirlen.zero
        let dl2 := if c2 then dirlenUpd data2 trigFuel dl1 old.parent_id
            ⟨-(1 + s2.dir_count), 0, -(1 + s2.tree_dir_count), -s2.tree_file_count⟩
          else dl1
        let dl3 := if c3 then dirlenUpd data2 trigFuel dl2 new.parent_id ⟨0, 1, 0, 1⟩
          else dl2
        let s4 := (alookup dl3 id).getD Dirlen.zero
        let dl4 := if c4 then dirlenUpd data2 trigFuel dl3 new.parent_id
            ⟨1 + s4.dir_count, 0, 1 + s4.tree_dir_count, s4.tree_file_count⟩
          else dl3
        let evs := if old.clearTrig = new.clearTrig then db.events
          else db.events ++ [⟨id, some old, new, updateOps old new⟩]
        { data := data2, dirlen := dl4, events := evs }


/-- One item of `upsert_items(con, items, extras={"_triggered": 0})`:
insert-or-update keyed on id, every business field set from the incoming
item and `_triggered` reset to 0. -/
def upsertItem (db : DB) (id : Nat) (r : Row) : DB :=
  match alookup db.data id with
  | none => insertRow db id { r with triggered := false }
  | some _ => updateRow db id { r with triggered := false }


/-- `kill_items`: `UPDATE data SET is_alive=0 WHERE id IN (...)` — note
that it does not touch `_triggered`. -/
def killRow (db : DB) (id : Nat) : DB :=
  match alookup db.data id with
  | none => db
  | some old => updateRow db id { old with is_alive := false }


/-- The store's write operations: batched upserts and kills. -/
inductive Op
  | upsert (id : Nat) (r : Row)
  | kill (ids : List Nat)


def applyOp (db : DB) : Op → DB
  | Op.upsert id r => upsertItem db id r
  | Op.kill ids => ids.foldl killRow db


def applyOps (db : DB) (ops : List Op) : DB := ops.foldl applyOp db


/-! ### Claim C1: mtime monotonicity -/
def mtimeAt (db : DB) (id : Nat) : Option Nat :=
  (alookup db.data id).map Row.mtime


/-- Order on optional stored mtimes: an absent row is below everything. -/
def mtimeLe : Option Nat → Option Nat → Prop
  | none, _ => True
  | some _, none => False
  | some a, some b => a ≤ b


def rowF1 : Row :=
  ⟨0, "", "", "f", 0, false, 99, 1, 1, false, true, false⟩


def rowF2 : Row := { rowF1 with mtime := 2 }


/-- State after upserting file 2 (insert) and upserting it again with a
newer mtime (update, which leaves `_triggered = 1` behind). -/
def dbAfterUpserts : DB := applyOps DB.init [Op.upsert 2 rowF1, Op.upsert 2 rowF2]


/-- State after then killing file 2. -/
def dbAfterKill : DB := applyOp dbAfterUpserts (Op.kill [2])


/-! ### Claims C2 and C5: the `_triggered` gate silently swallows kills -/
/-- Does the parent chain starting at `pid` reach `target` (walking the
`data` table, bounded by fuel)? -/
def parentChainHits (data : List (Nat × Row)) : Nat → Nat → Nat → Bool
  | 0, _, _ => false
  | fuel + 1, pid, target =>
    if pid = target then true
    else
      match alookup data pid with
      | none => false
      | some r => parentChainHits data fuel r.parent_id target


/-- Number of currently-alive file nodes in the subtree of directory `d`. -/
def aliveFileDescCount (db : DB) (d : Nat) (fuel : Nat) : Nat :=
  (db.data.filter
    (fun p => p.2.is_alive && !p.2.is_dir && parentChainHits db.data fuel p.2.parent_id d)).length


/-- Number of currently-alive directory nodes in the subtree of directory `d`. -/
def aliveDirDescCount (db : DB) (d : Nat) (fuel : Nat) : Nat :=
  (db.data.filter
    (fun p => p.2.is_alive && p.2.is_dir && parentChainHits db.data fuel p.2.parent_id d)).length


/-! ### Error taxonomy

Exception classes surfaced by the fetch/reconcile layer, as used by
`iterdir` / `iter_fs_files_threaded` (`BusyOSError` for the duplicate-id
race and for count drift, `NotADirectoryError`, `FileNotFoundError`) and
interpreted by the `updatedb` orchestrator loop. -/
inductive BusyReason
  | countDrift
  | duplicateId
deriving DecidableEq


inductive FsError
  | busy (r : BusyReason)
  | ioFailure
  | notFound
  | notADirectory
  | fatal
deriving DecidableEq


/-! ### Claim C3: the `diff_dir` merge

`iterdir`'s `fix_order` loop (directories buffered and re-inserted into the
mtime-descending stream), the shared `seen` set it fills as items are
pulled, and the merge loop of `diff_dir` against the local history groups. -/
structure FItem where
  id : Nat
  mtime : Nat
  is_dir : Bool
deriving DecidableEq


/-- The inner `while dirs and dirs[0]["mtime"] >= mtime: yield pop()`:
returns the flushed front and the remaining buffer. -/
def flushGe : List FItem → Nat → List FItem × List FItem
  | [], _ => ([], [])
  | d :: rest, m =>
    if d.mtime ≥ m then
      let p := flushGe rest m
      (d :: p.1, p.2)
    else ([], d :: rest)


/-- The `fix_order` item loop of `iterdir.iterate`: each pulled item is
added to `seen` (duplicate ids raise `BusyOSError`), directory entries are
buffered, and each file entry first flushes buffered directories with
mtime ≥ its own.  The output records, next to each yielded item, the
content of `seen` at the moment of its yield (the merge in `diff_dir`
reads that shared set while iterating). -/
def iterdirGo : List FItem → List FItem → List Nat → List (FItem × List Nat) →
    Except FsError (List (FItem × List Nat) × List FItem × List Nat)
  | [], dirs, seen, out => Except.ok (out, dirs, seen)
  | a :: rest, dirs, seen, out =>
    if a.id ∈ seen then Except.error (FsError.busy BusyReason.duplicateId)
    else
      let seen' := seen ++ [a.id]
      if a.is_dir then iterdirGo rest (dirs ++ [a]) seen' out
      else
        let p := flushGe dirs a.mtime
        iterdirGo rest p.2 seen' (out ++ p.1.map (fun d => (d, seen')) ++ [(a, seen')])


/-- The full `iterdir` stream over the pages of one listing pass: at
stream end the still-buffered directories are yielded last. -/
def iterdirModel (pages : List (List FItem)) :
    Except FsError (List (FItem × List Nat) × List Nat) :=
  match iterdirGo pages.flatten [] [] [] with
  | Except.error e => Except.error e
  | Except.ok (out, dirs, seen) =>
    Except.ok (out ++ dirs.map (fun d => (d, seen)), seen)


/-- Python set difference `his_ids - seen` (as a list of surviving ids). -/
def setDiff (xs ys : List Nat) : List Nat := xs.filter (fun x => !(ys.contains x))


/-- The inner `while his_mtime > cur_mtime` loop of `diff_dir`: groups
strictly newer than the current item are scheduled for removal (minus ids
already seen remotely) and `remains` is decremented; when the group
iterator is exhausted (`StopIteration`) the flag is reported and the stale
bindings are kept, mirroring the Python variables. -/
def dropNewer (curM : Nat) (seen : List Nat) (remains : Int) (g : Nat × List Nat)
    (gs : List (Nat × List Nat)) (rems : List Nat) :
    Int × (Nat × List Nat) × List (Nat × List Nat) × List Nat × Bool :=
  if g.1 > curM then
    let rems' := rems ++ setDiff g.2 seen
    let remains' := remains - (g.2.length : Int)
    match gs with
    | [] => (remains', g, [], rems', true)
    | g' :: gs' => dropNewer curM seen remains' g' gs' rems'
  else (remains, g, gs, rems, false)


/-- The merge loop of `diff_dir` (`for n, attr in enumerate(data_it, 1)`),
with `his` holding the current group and the unconsumed groups.  Note the
`except StopIteration: continue`: when the history exhausts while handling
an item, that item is neither upserted nor matched. -/
def mergeGo (count : Nat) (finalSeen : List Nat) :
    Nat → Int → Option ((Nat × List Nat) × List (Nat × List Nat)) →
    List (FItem × List Nat) → List FItem → List Nat → List FItem × List Nat
  | _, remains, his, [], ups, rems =>
    if remains ≠ 0 then
      match his with
      | none => (ups, rems)
      | some (g, gs) =>
        let rems1 := rems ++ setDiff g.2 finalSeen
        let rems2 := gs.foldl (fun acc g' => acc ++ setDiff g'.2 finalSeen) rems1
        (ups, rems2)
    else (ups, rems)
  | n, remains, his, (attr, seen) :: rest, ups, rems =>
    if remains ≠ 0 then
      match his with
      | none => mergeGo count finalSeen (n + 1) remains none rest (ups ++ [attr]) rems
      | some (g, gs) =>
        match dropNewer attr.mtime seen remains g gs rems with
        | (remains', g', gs', rems', exhausted) =>
          if exhausted then
            mergeGo count finalSeen (n + 1) remains' (some (g', gs')) rest ups rems'
          else if g'.1 = attr.mtime ∧ attr.id ∈ g'.2 then
            let remains2 := remains' - 1
            if (n : Int) + remains2 = (count : Int) then (ups, rems')
            else
              mergeGo count finalSeen (n + 1) remains2
                (some ((g'.1, g'.2.erase attr.id), gs')) rest ups rems'
          else
            mergeGo count finalSeen (n + 1) remains' (some (g', gs')) rest
              (ups ++ [attr]) rems'
    else mergeGo count finalSeen (n + 1) remains his rest (ups ++ [attr]) rems


/-- The diffing path of `diff_dir` when local history exists: fetch the
stream via `iterdir`, look up the history groups (`select_mtime_groups`
returns the alive-children count `remains` and the groups in descending
mtime order), and merge. -/
def diff_dir_merge (count : Nat) (remains : Int) (groups : List (Nat × List Nat))
    (pages : List (List FItem)) : Except FsError (List FItem × List Nat) :=
  match iterdirModel pages with
  | Except.error e => Except.error e
  | Except.ok (stream, finalSeen) =>
    if remains ≠ 0 then
      match groups with
      | [] => Except.error FsError.fatal
      | g :: gs => Except.ok (mergeGo count finalSeen 1 remains (some (g, gs)) stream [] [])
    else Except.ok (mergeGo count finalSeen 1 remains none stream [] [])


/-! ### Claim C4: the adaptive paginator `iter_fs_files_threaded`

The loop is modelled against a stable remote listing `items` paged by
`page_size`: the fetch for offset `o` returns
`{count := items.length, offset := o, data := (items.drop o).take ps}`.
Each turn of the `while True` loop awaits `future.result(...)`, whose
outcome is supplied by a schedule: `timeout` (the cooldown elapsed —
`payload["offset"]` advances and a speculative future is pushed when the
offset may still be in range), `failRetry` (a timeout-class exception from
the fetch itself — refetched at the same offset), or `complete` (the
response arrives: it is yielded, then either the queued speculative future
is consumed, or the loop breaks / issues the next normal fetch). -/
inductive PgOutcome
  | timeout
  | failRetry
  | complete


/-- Loop state: pages yielded so far, the offset of the future currently
awaited, the offsets queued in `dq`, `payload["offset"]`, and the last seen
`count` (`none` models the initial `count = -1`). -/
structure PgState (α : Type) where
  out : List (List α)
  cur : Nat
  dq : List Nat
  payOff : Nat
  count : Option Nat


def pgInit {α : Type} : PgState α := ⟨[], 0, [], 0, none⟩


/-- The page served for offset `o` by a stable listing. -/
def pgPage {α : Type} (items : List α) (ps o : Nat) : List α := (items.drop o).take ps


/-- The paginator loop of `iter_fs_files_threaded` (the
`st.cur ≠ st.cur` disjunct transcribes `offset != resp["offset"]`, which a
stable source never triggers). Returns `none` on fuel exhaustion. -/
def pgRun {α : Type} (items : List α) (ps : Nat) (sched : Nat → PgOutcome) :
    Nat → Nat → PgState α → Option (List (List α))
  | 0, _, _ => none
  | fuel + 1, n, st =>
    match sched n with
    | PgOutcome.timeout =>
      let payOff' := st.payOff + ps
      let push : Bool :=
        match st.count with
        | none => true
        | some c => decide (payOff' < c)
      pgRun items ps sched fuel (n + 1)
        { st with payOff := payOff', dq := if push then st.dq ++ [payOff'] else st.dq }
    | PgOutcome.failRetry => pgRun items ps sched fuel (n + 1) st
    | PgOutcome.complete =>
      let total := items.length
      let data := pgPage items ps st.cur
      let out' := st.out ++ [data]
      match st.dq with
      | o :: rest =>
        pgRun items ps sched fuel (n + 1)
          { out := out', cur := o, dq := rest, payOff := st.payOff, count := some total }
      | [] =>
        if total = 0 ∨ st.cur ≥ total ∨ st.cur ≠ st.cur ∨ st.cur + data.length ≥ total then
          some out'
        else
          pgRun items ps sched fuel (n + 1)
            { out := out', cur := st.cur + ps, dq := [], payOff := st.cur + ps,
              count := some total }


def consec (cur ps k : Nat) : List Nat := (List.range k).map (fun i => cur + ps * (i + 1))


def pgInv {α : Type} (items : List α) (ps : Nat) (st : PgState α) : Prop :=
  st.out.flatten = items.take st.cur ∧
  st.dq = consec st.cur ps st.dq.length ∧
  (st.payOff = st.cur + ps * st.dq.length ∨
    (st.count = some items.length ∧ items.length ≤ st.payOff)) ∧
  (st.count = none ∨ st.count = some items.length)


/-- A schedule whose first await times out (one speculative fetch races)
and whose later awaits complete. -/
def pgSchedW : Nat → PgOutcome :=
  fun n => if n = 0 then PgOutcome.timeout else PgOutcome.complete


/-! ### Claim C7: transaction boundaries of the reconciliation write phase

A transaction is a list of store writes; `commitUpTo txns s k` is the
state a reader observes after the first `k` transactions committed (a
failure inside a transaction rolls it back, so the observable states are
exactly the prefix states). -/
def applyTxn (db : DB) (t : List Op) : DB := t.foldl applyOp db


def commitUpTo (txns : List (List Op)) (db : DB) (k : Nat) : DB :=
  (txns.take k).foldl applyTxn db


def upsertOps (items : List (Nat × Row)) : List Op :=
  items.map (fun p => Op.upsert p.1 p.2)


/-- The write phase of `updatedb_one`: one `transact(con)` block holding
`upsert_items(cur, to_upsert)` and `kill_items(cur, to_remove)`. -/
def updatedb_one_txns (to_upsert : List (Nat × Row)) (to_remove : List Nat) :
    List (List Op) :=
  [upsertOps to_upsert ++ [Op.kill to_remove]]


/-- The write phase of `updatedb_tree`: four separately committed calls —
`upsert_items(con, ancestors, commit=True)`,
`upsert_items(con, to_upsert, commit=True)`,
`upsert_items(con, to_recall, commit=True)`,
`kill_items(con, to_remove, commit=True)`. -/
def updatedb_tree_txns (ancestors to_upsert to_recall : List (Nat × Row))
    (to_remove : List Nat) : List (List Op) :=
  [upsertOps ancestors, upsertOps to_upsert, upsertOps to_recall, [Op.kill to_remove]]


def treeBase : DB := applyOp DB.init (Op.upsert 9 rowF1)


def treeDeltaTxns : List (List Op) := updatedb_tree_txns [] [(7, rowF1)] [] [9]


def treeMid : DB := commitUpTo treeDeltaTxns treeBase 3


/-! ### Claims C8 and C10: the auto-splitting decision of `updatedb`

`ProbeResult` is the outcome of `cache_futures[id].result()`:
`get_file_count_in_tree` returns the count, returns infinity when the
statistics probe failed with a timeout-class error, and re-raises any
other exception.  The decision mirrors the `if auto_splitting_threshold`
chain in the `updatedb` loop (`count` is a file count, hence `Nat`, so the
Python `count <= 0` is `c = 0`). -/
inductive ProbeResult
  | ok (c : Nat)
  | timeoutInf
  | failed


inductive SplitDecision
  | split
  | noSplit
  | skip
  | abort
deriving DecidableEq


def splitDecision (recursive : Bool) (thr : Int) (probe : ProbeResult) : SplitDecision :=
  if thr = 0 then SplitDecision.split
  else if thr < 0 then SplitDecision.noSplit
  else if recursive then
    match probe with
    | ProbeResult.ok c =>
      if c = 0 then SplitDecision.skip
      else if thr < (c : Int) then SplitDecision.split
      else SplitDecision.noSplit
    | ProbeResult.timeoutInf => SplitDecision.split
    | ProbeResult.failed => SplitDecision.abort
  else SplitDecision.split


/-! ### The orchestrator loop body -/
structure OrcState where
  queue : List Nat
  seen : List Nat
  store : DB
deriving DecidableEq


/-- Modelled from the spec: `iter_descendants_fast(con, id, fields=False,
ensure_file=False, max_depth=1)` comes from the `p115updatedb.query`
module, which is not part of this source tree; the spec says the
orchestrator enqueues "each living child *directory* id discovered". -/
def aliveChildDirs (db : DB) (id : Nat) : List Nat :=
  (db.data.filter
    (fun p => p.2.is_alive && p.2.is_dir && decide (p.2.parent_id = id))).map Prod.fst


/-- One iteration of the `updatedb` loop for the dequeued `id` with
remaining queue `rest`: the already-processed check, the split decision,
the reconciliation call (`updatedb_one` when splitting or non-recursive,
else `updatedb_tree` — abstracted by `reconcile`), the except-clause
dispatch (`FileNotFoundError` tombstones locally, `NotADirectoryError`
skips, `BusyOSError` re-enqueues at the back, anything else aborts the
run), and on success the seen-marking plus child-directory enqueue when
the task was split. -/
def orcHandle (recursive : Bool) (thr : Int) (probe : ProbeResult)
    (reconcile : Bool → DB → Except FsError DB)
    (st : OrcState) (id : Nat) (rest : List Nat) : Except FsError OrcState :=
  if id ∈ st.seen then Except.ok { st with queue := rest }
  else
    match splitDecision recursive thr probe with
    | SplitDecision.skip =>
      Except.ok { queue := rest, seen := st.seen ++ [id], store := st.store }
    | SplitDecision.abort => Except.error FsError.fatal
    | d =>
      let one : Bool := decide (d = SplitDecision.split) || !recursive
      match reconcile one st.store with
      | Except.error FsError.notFound =>
        Except.ok { queue := rest, seen := st.seen, store := killRow st.store id }
      | Except.error FsError.notADirectory =>
        Except.ok { queue := rest, seen := st.seen, store := st.store }
      | Except.error (FsError.busy _) =>
        Except.ok { queue := rest ++ [id], seen := st.seen, store := st.store }
      | Except.error e => Except.error e
      | Except.ok store' =>
        if recursive ∧ d = SplitDecision.split then
          Except.ok { queue := rest ++ aliveChildDirs store' id,
                      seen := st.seen ++ [id], store := store' }
        else
          Except.ok { queue := rest, seen := st.seen ++ [id], store := store' }


/-! ### Claim C6: total-count drift is a Busy condition -/
structure PageResp where
  count : Nat
  data : List FItem
deriving DecidableEq


/-- Modelled from the spec: the count-drift check enabled by
`raise_for_changed_count=True` (which `iterdir` passes down to
`iter_fs_files` / `iter_fs_files_threaded`) lives inside
`P115Client.fs_files`, outside this source tree; the spec says a changed
total item count mid-stream "fails as a Busy condition, distinct from I/O
failure". The reference count is the first page's. -/
def driftCheckGo (c0 : Nat) : List PageResp → Except FsError Unit
  | [] => Except.ok ()
  | p :: rest =>
    if p.count ≠ c0 then Except.error (FsError.busy BusyReason.countDrift)
    else driftCheckGo c0 rest


def checkCountDrift : List PageResp → Except FsError Unit
  | [] => Except.ok ()
  | p0 :: rest => driftCheckGo p0.count rest


/-- Classification of one directory task's failure by the orchestrator's
except-clause chain in `updatedb`. -/
inductive TaskOutcome
  | skippedNotFound
  | skippedNotADir
  | requeued
  | aborted
deriving DecidableEq


def dispatchFailure : FsError → TaskOutcome
  | FsError.notFound => TaskOutcome.skippedNotFound
  | FsError.notADirectory => TaskOutcome.skippedNotADir
  | FsError.busy _ => TaskOutcome.requeued
  | _ => TaskOutcome.aborted


/-! ### Claim C9: the topological `sort` helper

`sort(data)` sorts the record list in place, ascending by `depth(id)` where
`depth` walks the dict `{a["id"]: a["parent_id"] for a in data}` (built
last-occurrence-wins, hence the lookup in `data.reverse`); Python's
unbounded recursion is embedded with fuel `data.length + 1`, which exceeds
the true recursion depth for every acyclic input because the in-domain ids
along a parent chain are pairwise distinct.  Python's `list.sort` is a
stable ascending sort, embedded as `List.insertionSort`. -/
structure SNode where
  id : Nat
  parent_id : Nat
deriving DecidableEq


def parentMap (data : List SNode) (i : Nat) : Option Nat :=
  (data.reverse.find? (fun a => a.id == i)).map SNode.parent_id


def depthF (d : Nat → Option Nat) : Nat → Nat → Nat
  | 0, _ => 0
  | fuel + 1, i =>
    match d i with
    | some p => 1 + depthF d fuel p
    | none => 0


def nodeDepth (data : List SNode) (i : Nat) : Nat :=
  depthF (parentMap data) (data.length + 1) i


def sortNodes (data : List SNode) : List SNode :=
  List.insertionSort (fun a b => nodeDepth data a.id ≤ nodeDepth data b.id) data


def nodeKeys (data : List SNode) : Finset Nat := (data.map SNode.id).toFinset


/-! ### Theorems -/

theorem alookup_aset_self {α : Type} (l : List (Nat × α)) (k : Nat) (v : α) :
    alookup (aset l k v) k = some v := by
  induction l with
  | nil => simp [aset, alookup]
  | cons p r ih =>
    by_cases h : p.1 = k
    · simp [aset, alookup, h]
    · simp [aset, alookup, h, ih]


theorem alookup_aset_ne {α : Type} (l : List (Nat × α)) (k k' : Nat) (v : α)
    (h : k' ≠ k) : alookup (aset l k v) k' = alookup l k' := by
  induction l with
  | nil => simp [aset, alookup, Ne.symm h]
  | cons p r ih =>
    by_cases hp : p.1 = k
    · simp [aset, alookup, hp, Ne.symm h]
    · simp [aset, alookup, hp, ih]


theorem mtimeLe_refl (a : Option Nat) : mtimeLe a a := by
  cases a <;> simp [mtimeLe]


theorem mtimeLe_trans {a b c : Option Nat} (h1 : mtimeLe a b) (h2 : mtimeLe b c) :
    mtimeLe a c := by
  cases a with
  | none => simp [mtimeLe]
  | some x =>
    cases b with
    | none => simp [mtimeLe] at h1
    | some y =>
      cases c with
      | none => simp [mtimeLe] at h2
      | some z => exact Nat.le_trans h1 h2


theorem aset_aset {α : Type} (l : List (Nat × α)) (k : Nat) (v v' : α) :
    aset (aset l k v) k v' = aset l k v' := by
  induction l with
  | nil => simp [aset]
  | cons p r ih =>
    by_cases hp : p.1 = k
    · simp [aset, hp]
    · simp [aset, hp, ih]


theorem updateRow_data (db : DB) (j : Nat) (new old : Row)
    (h : alookup db.data j = some old) (hm : ¬ new.mtime < old.mtime)
    (ht : new.triggered = false) :
    (updateRow db j new).data = aset db.data j { new with triggered := true } := by
  simp only [updateRow, h, if_neg hm, ht]
  simp [aset_aset]


theorem killRow_mtimeAt (db : DB) (j id : Nat) :
    mtimeAt (killRow db j) id = mtimeAt db id := by
  unfold killRow
  cases h : alookup db.data j with
  | none => rfl
  | some old =>
    have hd : (updateRow db j { old with is_alive := false }).data =
        aset db.data j { old with is_alive := false, triggered := true } ∨
        (updateRow db j { old with is_alive := false }).data =
        aset db.data j { old with is_alive := false } := by
      simp only [updateRow, h]
      rw [if_neg (by simp)]
      by_cases ht : old.triggered
      · right; simp [ht]
      · left
        simp only [ht, if_neg Bool.false_ne_true, if_false]
        simp [aset_aset]
    by_cases hij : id = j
    · subst hij
      rcases hd with hd | hd <;>
        simp [mtimeAt, hd, alookup_aset_self, h]
    · rcases hd with hd | hd <;>
        simp [mtimeAt, hd, alookup_aset_ne _ _ _ _ hij]


theorem killFold_mtimeAt (ids : List Nat) (db : DB) (id : Nat) :
    mtimeAt (ids.foldl killRow db) id = mtimeAt db id := by
  induction ids generalizing db with
  | nil => rfl
  | cons j rest ih => rw [List.foldl_cons, ih, killRow_mtimeAt]


theorem upsertItem_mtimeAt (db : DB) (j : Nat) (r : Row) (id : Nat) :
    mtimeLe (mtimeAt db id) (mtimeAt (upsertItem db j r) id) := by
  unfold upsertItem
  cases h : alookup db.data j with
  | none =>
    by_cases hij : id = j
    · subst hij; simp [mtimeAt, h, mtimeLe]
    · simp only [insertRow, mtimeAt]
      rw [alookup_aset_ne _ _ _ _ hij]
      exact mtimeLe_refl _
  | some old =>
    by_cases hm : (({ r with triggered := false } : Row)).mtime < old.mtime
    · simp only [updateRow, h, if_pos hm]
      exact mtimeLe_refl _
    · have hd := updateRow_data db j { r with triggered := false } old h hm rfl
      by_cases hij : id = j
      · subst hij
        simp only [mtimeAt, hd, alookup_aset_self, h, Option.map_some]
        simpa [mtimeLe] using Nat.le_of_not_lt hm
      · simp only [mtimeAt, hd]
        rw [alookup_aset_ne _ _ _ _ hij]
        exact mtimeLe_refl _


theorem applyOp_mtimeAt (db : DB) (op : Op) (id : Nat) :
    mtimeLe (mtimeAt db id) (mtimeAt (applyOp db op) id) := by
  cases op with
  | upsert j r => exact upsertItem_mtimeAt db j r id
  | kill ids => rw [applyOp, killFold_mtimeAt]; exact mtimeLe_refl _


theorem applyOps_mtimeAt (ops : List Op) (db : DB) (id : Nat) :
    mtimeLe (mtimeAt db id) (mtimeAt (applyOps db ops) id) := by
  induction ops generalizing db with
  | nil => exact mtimeLe_refl _
  | cons op rest ih =>
    exact mtimeLe_trans (applyOp_mtimeAt db op id) (ih (applyOp db op))


/-- C1: for every node id, the stored mtime is monotonically non-decreasing
across every sequence of store writes; an upsert whose incoming mtime is
strictly lower than the stored mtime for that id leaves the whole database
unchanged (hence every business field of that row), while an upsert with an
equal or newer mtime applies its update to the row
(`trg_data_before_update` raises `IGNORE` exactly when
`NEW.mtime < OLD.mtime`). -/
theorem upsert_mtime_monotone (db : DB) (id : Nat) (r old : Row)
    (hold : alookup db.data id = some old) :
    (r.mtime < old.mtime → upsertItem db id r = db) ∧
    (old.mtime ≤ r.mtime →
      alookup (upsertItem db id r).data id = some { r with triggered := true }) ∧
    ∀ ops : List Op, mtimeLe (mtimeAt db id) (mtimeAt (applyOps db ops) id) :=
  ⟨fun hlt => by
      simp only [upsertItem, hold, updateRow]
      rw [if_pos (by simpa using hlt)],
   fun hle => by
      have hm : ¬ (({ r with triggered := false } : Row)).mtime < old.mtime := by
        simpa using Nat.not_lt.mpr hle
      rw [upsertItem, hold, updateRow_data db id { r with triggered := false } old hold hm rfl,
        alookup_aset_self],
   fun ops => applyOps_mtimeAt ops db id⟩


theorem upsert_mtime_monotone_witness :
    upsertItem (applyOp DB.init (Op.upsert 2 rowF2)) 2 rowF1 =
      applyOp DB.init (Op.upsert 2 rowF2) :=
  (upsert_mtime_monotone (applyOp DB.init (Op.upsert 2 rowF2)) 2 rowF1
    { rowF2 with triggered := false } (by decide)).1 (by decide)


/-- C2 (failing input): after upsert-insert of file 2 under root, an
upsert-update of it (newer mtime), and then `kill_items([2])`, the root's
`dirlen.tree_file_count` is still 1 although the file is dead and root has
no alive file descendant — `trg_data_update` is gated on
`WHEN NOT NEW._triggered` and `kill_items` does not reset `_triggered`,
so the kill neither decrements the aggregates nor propagates. -/
theorem dirlen_kill_after_update_breaks_invariant :
    (alookup dbAfterKill.dirlen 0).map Dirlen.tree_file_count = some 1 ∧
    (alookup dbAfterKill.dirlen 0).map Dirlen.file_count = some 1 ∧
    aliveFileDescCount dbAfterKill 0 10 = 0 ∧
    (alookup dbAfterUpserts.data 2).map Row.is_alive = some true ∧
    (alookup dbAfterKill.data 2).map Row.is_alive = some false := by
  decide


/-- C5 (failing input): the same kill changes the persisted `is_alive`
field from 1 to 0 yet appends no `event` row at all (the claim requires a
`remove`-tagged event); the two earlier writes each appended exactly one. -/
theorem kill_after_update_appends_no_event :
    dbAfterKill.events = dbAfterUpserts.events ∧
    dbAfterUpserts.events.length = 2 ∧
    (alookup dbAfterUpserts.data 2).map Row.is_alive = some true ∧
    (alookup dbAfterKill.data 2).map Row.is_alive = some false := by
  decide


/-- C3 (failing input): local history has one alive child (id 1, mtime
100); the remote stream reports total 1 and yields the single brand-new
file id 2 with mtime 90.  The claim requires remove = [1] and upsert =
[item 2]; the code returns upsert = [] — the `except StopIteration:
continue` drops the item under scrutiny when the history iterator
exhausts, so the newly added id 2 is silently not upserted. -/
theorem diff_dir_drops_item_on_history_exhaustion :
    diff_dir_merge 1 1 [(100, [1])] [[⟨2, 90, false⟩]] = Except.ok ([], [1]) ∧
    (2 : Nat) ∉ ([1] : List Nat) :=
  ⟨rfl, by decide⟩


theorem consec_length (cur ps k : Nat) : (consec cur ps k).length = k := by
  simp [consec]


theorem consec_succ (cur ps k : Nat) :
    consec cur ps (k + 1) = (cur + ps) :: consec (cur + ps) ps k := by
  unfold consec
  rw [List.range_succ_eq_map]
  simp only [List.map_cons, List.map_map]
  congr 1
  · ring
  · apply List.map_congr_left
    intro i _
    simp only [Function.comp_apply, Nat.succ_eq_add_one]
    ring


theorem consec_snoc (cur ps k : Nat) :
    consec cur ps (k + 1) = consec cur ps k ++ [cur + ps * (k + 1)] := by
  unfold consec
  rw [List.range_succ]
  simp


theorem pgRun_inv {α : Type} (items : List α) (ps : Nat) (sched : Nat → PgOutcome) :
    ∀ (fuel n : Nat) (st : PgState α) (out : List (List α)),
      pgInv items ps st → pgRun items ps sched fuel n st = some out →
      out.flatten = items := by
  intro fuel
  induction fuel with
  | zero => intro n st out _ h; simp [pgRun] at h
  | succ fuel ih =>
    intro n st out hinv hrun
    obtain ⟨ha, hb, hc, hd⟩ := hinv
    rw [pgRun] at hrun
    cases hs : sched n with
    | timeout =>
      rw [hs] at hrun
      simp only at hrun
      refine ih (n + 1) _ out ?_ hrun
      by_cases hpush : (match st.count with
        | none => true
        | some c => decide (st.payOff + ps < c)) = true
      · -- the speculative future is pushed
        have hleft : st.payOff = st.cur + ps * st.dq.length := by
          rcases hc with hc | ⟨hcnt, hle⟩
          · exact hc
          · cases hcount : st.count with
            | none => rw [hcount] at hcnt; cases hcnt
            | some c =>
              rw [hcount] at hpush hcnt
              simp only [decide_eq_true_eq] at hpush
              have hc' : c = items.length := by injection hcnt
              omega
        rw [if_pos hpush]
        refine ⟨ha, ?_, ?_, hd⟩
        · show st.dq ++ [st.payOff + ps] =
            consec st.cur ps (st.dq ++ [st.payOff + ps]).length
          rw [List.length_append, List.length_singleton, consec_snoc]
          rw [hleft]
          rw [← hb]
          congr 2
          ring
        · left
          show st.payOff + ps = st.cur + ps * (st.dq ++ [st.payOff + ps]).length
          rw [List.length_append, List.length_singleton, hleft]
          ring
      · rw [if_neg hpush]
        have hcne : ∃ c, st.count = some c ∧ ¬ st.payOff + ps < c := by
          cases hcount : st.count with
          | none => rw [hcount] at hpush; simp at hpush
          | some c =>
            rw [hcount] at hpush
            simp only [decide_eq_true_eq] at hpush
            exact ⟨c, rfl, hpush⟩
        obtain ⟨c, hcount, hple⟩ := hcne
        have hc' : c = items.length := by
          rcases hd with hd | hd
          · rw [hcount] at hd; cases hd
          · rw [hcount] at hd; injection hd
        refine ⟨ha, hb, ?_, hd⟩
        right
        constructor
        · show st.count = some items.length
          rw [hcount, hc']
        · show items.length ≤ st.payOff + ps
          omega
    | failRetry =>
      rw [hs] at hrun
      exact ih (n + 1) st out ⟨ha, hb, hc, hd⟩ hrun
    | complete =>
      rw [hs] at hrun
      simp only at hrun
      have hjoin : (st.out ++ [pgPage items ps st.cur]).flatten =
          items.take (st.cur + ps) := by
        rw [List.flatten_append, List.flatten_cons, List.flatten_nil, List.append_nil, ha,
          pgPage, List.take_add]
      cases hdq : st.dq with
      | cons o rest =>
        rw [hdq] at hrun
        refine ih (n + 1) _ out ?_ hrun
        rw [hdq] at hb hc
        rw [List.length_cons, consec_succ] at hb
        have ho : o = st.cur + ps := by exact (List.cons.injEq _ _ _ _ ▸ hb).1
        have hrest : rest = consec (st.cur + ps) ps rest.length :=
          (List.cons.injEq _ _ _ _ ▸ hb).2
        refine ⟨?_, ?_, ?_, ?_⟩
        · show (st.out ++ [pgPage items ps st.cur]).flatten = items.take o
          rw [hjoin, ho]
        · show rest = consec o ps rest.length
          rw [ho]; exact hrest
        · rcases hc with hc | hc
          · left
            show st.payOff = o + ps * rest.length
            rw [hc, ho, List.length_cons]
            ring
          · right
            exact ⟨hc.1.trans (by rfl) ▸ hc.1, hc.2⟩
        · right; rfl
      | nil =>
        rw [hdq] at hrun
        by_cases hbrk : items.length = 0 ∨ st.cur ≥ items.length ∨ st.cur ≠ st.cur ∨
            st.cur + (pgPage items ps st.cur).length ≥ items.length
        · rw [if_pos hbrk] at hrun
          injection hrun with hout
          subst hout
          rw [hjoin]
          have hlen_page : (pgPage items ps st.cur).length = min ps (items.length - st.cur) := by
            simp [pgPage]
          have htot : items.length ≤ st.cur + ps := by
            rcases hbrk with h0 | hge | hne | hd2
            · omega
            · omega
            · exact absurd rfl hne
            · rw [hlen_page] at hd2; omega
          exact List.take_of_length_le htot
        · rw [if_neg hbrk] at hrun
          refine ih (n + 1) _ out ?_ hrun
          exact ⟨hjoin, by simp [consec], by left; simp, by right; rfl⟩


/-- C4: for every stable remote listing and every schedule of awaited-fetch
outcomes (any number of cooldown timeouts triggering speculative look-ahead
fetches, and any number of transient-error retries), whenever the paginator
loop terminates, the concatenation of the yielded pages is exactly the
listing: every item is yielded exactly once, in original per-page order. -/
theorem iter_fs_files_threaded_exactly_once {α : Type} (items : List α) (ps : Nat)
    (sched : Nat → PgOutcome) (fuel : Nat) (out : List (List α))
    (h : pgRun items ps sched fuel 0 pgInit = some out) :
    out.flatten = items :=
  pgRun_inv items ps sched fuel 0 pgInit out
    ⟨by simp [pgInit], by simp [pgInit, consec], by left; simp [pgInit], by left; rfl⟩ h


theorem iter_fs_files_threaded_exactly_once_witness :
    ([[1, 2], [3, 4], [5]] : List (List Nat)).flatten = [1, 2, 3, 4, 5] :=
  iter_fs_files_threaded_exactly_once [1, 2, 3, 4, 5] 2 pgSchedW 10
    [[1, 2], [3, 4], [5]] (by decide)


/-- C7 (counterexample): `updatedb_tree` is a single-directory
reconciliation whose delta (upsert file 7, remove file 9) is split across
separately committed transactions, so after the third commit a reader
observes a partially-applied delta: the upsert of 7 is persisted while 9
is still alive — this state differs both from the pre-write state and
from the fully-applied state, contradicting the claim. -/
theorem updatedb_tree_partial_delta_observable :
    (alookup treeMid.data 7).isSome = true ∧
    (alookup treeMid.data 9).map Row.is_alive = some true ∧
    (alookup (commitUpTo treeDeltaTxns treeBase 4).data 9).map Row.is_alive = some false ∧
    treeMid ≠ treeBase ∧
    treeMid ≠ commitUpTo treeDeltaTxns treeBase 4 := by
  decide


/-- C7 (amended): for `updatedb_one`, the computed delta (upserts plus
tombstones) commits as one all-or-nothing transaction — every state a
reader can observe is either the pre-write state or the state with the
whole delta applied; `updatedb_tree` commits its delta in four separate
transactions and is excluded. -/
theorem updatedb_one_delta_atomic (to_upsert : List (Nat × Row)) (to_remove : List Nat)
    (s : DB) (k : Nat) :
    commitUpTo (updatedb_one_txns to_upsert to_remove) s k = s ∨
    commitUpTo (updatedb_one_txns to_upsert to_remove) s k =
      applyTxn s (upsertOps to_upsert ++ [Op.kill to_remove]) := by
  cases k with
  | zero => left; rfl
  | succ k =>
    right
    simp [commitUpTo, updatedb_one_txns]


/-- C8 (counterexample): the claim says a probe timeout *or error* is
treated as an infinite count forcing a split; in the code only
timeout-class errors are (`is_timeouterror`), any other probe error is
re-raised and aborts the run instead of splitting. -/
theorem probe_error_does_not_split :
    splitDecision true 5 ProbeResult.failed ≠ SplitDecision.split := by decide


/-- C8 (amended): in a recursive run, threshold zero always splits,
a negative threshold never splits, and a positive threshold splits exactly
when the probed subtree count exceeds it, a probe *timeout* counting as
infinite (forcing a split) while any other probe error propagates and
aborts the run. -/
theorem split_decision_characterization (recursive : Bool) (thr : Int)
    (p : ProbeResult) (c : Nat) :
    splitDecision recursive 0 p = SplitDecision.split ∧
    (thr < 0 → splitDecision recursive thr p = SplitDecision.noSplit) ∧
    (0 < thr → splitDecision true thr ProbeResult.timeoutInf = SplitDecision.split) ∧
    (0 < thr → splitDecision true thr ProbeResult.failed = SplitDecision.abort) ∧
    (0 < thr → 0 < c →
      (splitDecision true thr (ProbeResult.ok c) = SplitDecision.split ↔ thr < (c : Int))) := by
  refine ⟨?_, ?_, ?_, ?_, ?_⟩
  · simp [splitDecision]
  · intro h
    have h0 : thr ≠ 0 := by omega
    simp [splitDecision, h0, h]
  · intro h
    have h0 : thr ≠ 0 := by omega
    have h1 : ¬ thr < 0 := by omega
    simp [splitDecision, h0, h1]
  · intro h
    have h0 : thr ≠ 0 := by omega
    have h1 : ¬ thr < 0 := by omega
    simp [splitDecision, h0, h1]
  · intro h hc
    have h0 : thr ≠ 0 := by omega
    have h1 : ¬ thr < 0 := by omega
    have hc0 : c ≠ 0 := by omega
    constructor
    · intro he
      by_contra hlt
      simp [splitDecision, h0, h1, hc0, hlt] at he
    · intro hlt
      simp [splitDecision, h0, h1, hc0, hlt]


theorem split_decision_characterization_witness :
    splitDecision true 5 (ProbeResult.ok 7) = SplitDecision.split :=
  ((split_decision_characterization true 5 (ProbeResult.ok 7) 7).2.2.2.2
    (by decide) (by decide)).mpr (by decide)


/-- C10: in a recursive run with a positive threshold, a dequeued
directory whose statistics probe reports a subtree count of zero (the
Python `count <= 0`) is marked processed and skipped entirely: no
reconciliation runs (the store is untouched, for any reconcile function)
and nothing is enqueued. -/
theorem zero_count_skips_directory (thr : Int)
    (reconcile : Bool → DB → Except FsError DB)
    (st : OrcState) (id : Nat) (rest : List Nat)
    (hthr : 0 < thr) (hseen : id ∉ st.seen) :
    orcHandle true thr (ProbeResult.ok 0) reconcile st id rest =
      Except.ok { queue := rest, seen := st.seen ++ [id], store := st.store } := by
  have h0 : thr ≠ 0 := by omega
  have h1 : ¬ thr < 0 := by omega
  simp [orcHandle, hseen, splitDecision, h0, h1]


theorem zero_count_skips_directory_witness :
    orcHandle true 5 (ProbeResult.ok 0) (fun _ db => Except.ok db)
      ⟨[8], [], DB.init⟩ 7 [8] =
      Except.ok ⟨[8], [7], DB.init⟩ :=
  zero_count_skips_directory 5 (fun _ db => Except.ok db) ⟨[8], [], DB.init⟩ 7 [8]
    (by decide) (by decide)


theorem driftCheckGo_err (c0 : Nat) (pre post : List PageResp) (p : PageResp)
    (hne : p.count ≠ c0) :
    driftCheckGo c0 (pre ++ p :: post) = Except.error (FsError.busy BusyReason.countDrift) := by
  induction pre with
  | nil => simp [driftCheckGo, hne]
  | cons q pre ih =>
    by_cases hq : q.count = c0
    · simp only [List.cons_append, driftCheckGo]
      rw [if_neg (by simp [hq])]
      exact ih
    · simp [driftCheckGo, hq]


/-- C6: whenever a later page of one listing pass reports a total count
different from the first page's, the pass fails with the Busy condition
tagged as count drift — an error distinct from I/O failure and from the
duplicate-id Busy detection — and the orchestrator's dispatch re-enqueues
such a task for a later retry instead of aborting (as it would for an I/O
failure). -/
theorem count_drift_reports_busy (p0 p : PageResp) (pre post : List PageResp)
    (hne : p.count ≠ p0.count) :
    checkCountDrift (p0 :: (pre ++ p :: post)) =
      Except.error (FsError.busy BusyReason.countDrift) ∧
    FsError.busy BusyReason.countDrift ≠ FsError.ioFailure ∧
    FsError.busy BusyReason.countDrift ≠ FsError.busy BusyReason.duplicateId ∧
    dispatchFailure (FsError.busy BusyReason.countDrift) = TaskOutcome.requeued ∧
    dispatchFailure FsError.ioFailure = TaskOutcome.aborted := by
  refine ⟨?_, by decide, by decide, rfl, rfl⟩
  exact driftCheckGo_err p0.count pre post p hne


theorem count_drift_reports_busy_witness :
    checkCountDrift [⟨5, []⟩, ⟨6, []⟩] =
      Except.error (FsError.busy BusyReason.countDrift) :=
  (count_drift_reports_busy ⟨5, []⟩ ⟨6, []⟩ [] [] (by decide)).1


theorem parentMap_eq_some {data : List SNode} {i p : Nat}
    (h : parentMap data i = some p) :
    ∃ b ∈ data, b.id = i ∧ b.parent_id = p := by
  unfold parentMap at h
  cases hf : data.reverse.find? (fun a => a.id == i) with
  | none => rw [hf] at h; cases h
  | some b =>
    rw [hf] at h
    have hb : b ∈ data.reverse := List.mem_of_find?_eq_some hf
    have hpb := List.find?_some hf
    simp only [beq_iff_eq] at hpb
    refine ⟨b, List.mem_reverse.mp hb, hpb, by simpa using h⟩


theorem parentMap_isSome {data : List SNode} {a : SNode} (ha : a ∈ data) :
    (parentMap data a.id).isSome = true := by
  simp only [parentMap, Option.isSome_map', List.find?_isSome]
  exact ⟨a, List.mem_reverse.mpr ha, by simp⟩


theorem parentMap_of_mem {data : List SNode} {a : SNode} (ha : a ∈ data)
    (hconsist : ∀ x ∈ data, ∀ y ∈ data, x.id = y.id → x.parent_id = y.parent_id) :
    parentMap data a.id = some a.parent_id := by
  cases h : parentMap data a.id with
  | none =>
    have := parentMap_isSome ha
    rw [h] at this
    cases this
  | some p =>
    obtain ⟨b, hb, hbid, hbp⟩ := parentMap_eq_some h
    rw [← hbp]
    exact congrArg some (hconsist b hb a ha hbid)


theorem mem_nodeKeys_of_some {data : List SNode} {i p : Nat}
    (h : parentMap data i = some p) : i ∈ nodeKeys data := by
  obtain ⟨b, hb, hbid, _⟩ := parentMap_eq_some h
  unfold nodeKeys
  rw [List.mem_toFinset]
  exact hbid ▸ List.mem_map_of_mem SNode.id hb


theorem depthF_bound {data : List SNode} {rank : Nat → Nat}
    (hrank : ∀ a ∈ data, rank a.parent_id < rank a.id) :
    ∀ (fuel i : Nat) (s : Finset Nat), s ⊆ nodeKeys data →
      (∀ x ∈ s, rank i < rank x) →
      depthF (parentMap data) fuel i ≤ (nodeKeys data \ s).card := by
  intro fuel
  induction fuel with
  | zero => intro i s _ _; simp [depthF]
  | succ fuel ih =>
    intro i s hsub hlt
    cases h : parentMap data i with
    | none => simp [depthF, h]
    | some p =>
      obtain ⟨b, hb, hbid, hbp⟩ := parentMap_eq_some h
      have hrp : rank p < rank i := by
        rw [← hbid, ← hbp]
        exact hrank b hb
      have hik : i ∈ nodeKeys data := mem_nodeKeys_of_some h
      have hins : i ∉ s := fun hmem => absurd (hlt i hmem) (lt_irrefl _)
      have hsub' : insert i s ⊆ nodeKeys data := Finset.insert_subset hik hsub
      have hlt' : ∀ x ∈ insert i s, rank p < rank x := by
        intro x hx
        rcases Finset.mem_insert.mp hx with hx | hx
        · exact hx ▸ hrp
        · exact lt_trans hrp (hlt x hx)
      have hrec := ih p (insert i s) hsub' hlt'
      have hsd : nodeKeys data \ insert i s = (nodeKeys data \ s).erase i := by
        rw [Finset.sdiff_insert]
      have hmemd : i ∈ nodeKeys data \ s := Finset.mem_sdiff.mpr ⟨hik, hins⟩
      rw [hsd, Finset.card_erase_of_mem hmemd] at hrec
      have hpos : 0 < (nodeKeys data \ s).card := Finset.card_pos.mpr ⟨i, hmemd⟩
      simp only [depthF, h]
      omega


theorem depthF_stable (d : Nat → Option Nat) :
    ∀ (fuel i : Nat), depthF d fuel i < fuel →
      ∀ fuel', fuel ≤ fuel' → depthF d fuel' i = depthF d fuel i := by
  intro fuel
  induction fuel with
  | zero => intro i h; omega
  | succ fuel ih =>
    intro i h fuel' hle
    cases fuel' with
    | zero => omega
    | succ f' =>
      cases hd : d i with
      | none => simp [depthF, hd]
      | some p =>
        simp only [depthF, hd] at h ⊢
        have hlt : depthF d fuel p < fuel := by omega
        rw [ih p hlt f' (by omega)]


theorem nodeDepth_strict {data : List SNode} {x y : SNode}
    (hconsist : ∀ a ∈ data, ∀ b ∈ data, a.id = b.id → a.parent_id = b.parent_id)
    {rank : Nat → Nat} (hrank : ∀ a ∈ data, rank a.parent_id < rank a.id)
    (hx : x ∈ data) (_hy : y ∈ data) (hpc : x.parent_id = y.id) :
    nodeDepth data y.id < nodeDepth data x.id := by
  have hdx : parentMap data x.id = some y.id := by
    rw [← hpc]
    exact parentMap_of_mem hx hconsist
  have hxk : x.id ∈ nodeKeys data := mem_nodeKeys_of_some hdx
  have hbound := depthF_bound hrank data.length y.id {x.id}
    (Finset.singleton_subset_iff.mpr hxk)
    (by
      intro z hz
      rw [Finset.mem_singleton.mp hz, ← hpc]
      exact hrank x hx)
  have hcard : (nodeKeys data \ {x.id}).card = (nodeKeys data).card - 1 := by
    rw [Finset.sdiff_singleton_eq_erase, Finset.card_erase_of_mem hxk]
  have hcle : (nodeKeys data).card ≤ data.length := by
    unfold nodeKeys
    calc (data.map SNode.id).toFinset.card ≤ (data.map SNode.id).length :=
          List.toFinset_card_le _
      _ = data.length := List.length_map _ _
  have hcpos : 0 < (nodeKeys data).card := Finset.card_pos.mpr ⟨x.id, hxk⟩
  have hylt : depthF (parentMap data) data.length y.id < data.length := by
    rw [hcard] at hbound
    omega
  have hstab := depthF_stable (parentMap data) data.length y.id hylt
    (data.length + 1) (by omega)
  have hxstep : depthF (parentMap data) (data.length + 1) x.id =
      1 + depthF (parentMap data) data.length y.id := by
    simp [depthF, hdx]
  unfold nodeDepth
  rw [hstab, hxstep]
  omega


/-- C9: for every record list whose id-to-parent mapping is well defined
(records agreeing on id agree on parent) and acyclic (witnessed by a rank
that strictly decreases from each record's id to its parent id), the sort
helper terminates with a permutation of the input in which a record whose
id is some other record's parent_id always precedes that other record
(`reverse=False`, i.e. no child appears before its parent) — hence the
ancestor batches built by `load_ancestors` upsert every parent row before
any of its children. -/
theorem sort_parents_before_children (data : List SNode)
    (hconsist : ∀ a ∈ data, ∀ b ∈ data, a.id = b.id → a.parent_id = b.parent_id)
    (rank : Nat → Nat) (hrank : ∀ a ∈ data, rank a.parent_id < rank a.id) :
    (sortNodes data).Perm data ∧
    List.Pairwise (fun x y => x.parent_id ≠ y.id) (sortNodes data) := by
  have hperm : (sortNodes data).Perm data := List.perm_insertionSort _ data
  refine ⟨hperm, ?_⟩
  haveI htot : IsTotal SNode (fun a b => nodeDepth data a.id ≤ nodeDepth data b.id) :=
    ⟨fun a b => Nat.le_total _ _⟩
  haveI htrans : IsTrans SNode (fun a b => nodeDepth data a.id ≤ nodeDepth data b.id) :=
    ⟨fun _ _ _ => Nat.le_trans⟩
  have hsorted : List.Sorted (fun a b => nodeDepth data a.id ≤ nodeDepth data b.id)
      (sortNodes data) := List.sorted_insertionSort _ data
  refine List.Pairwise.imp_of_mem ?_ hsorted
  intro a b ha hb hle heq
  have ha' : a ∈ data := hperm.subset ha
  have hb' : b ∈ data := hperm.subset hb
  have := nodeDepth_strict hconsist hrank ha' hb' heq
  omega


theorem sort_parents_before_children_witness :
    (sortNodes [⟨2, 1⟩, ⟨1, 0⟩]).Perm [⟨2, 1⟩, ⟨1, 0⟩] ∧
    List.Pairwise (fun x y => x.parent_id ≠ y.id) (sortNodes [⟨2, 1⟩, ⟨1, 0⟩]) :=
  sort_parents_before_children [⟨2, 1⟩, ⟨1, 0⟩] (by decide) (fun n => n) (by decide)



end P115
